import Mathlib

/-!
# Verification of the niandra MPRIS playback-tracking core

Shallow embedding of the playback-tracking state machine of the repository
(`src/track.rs`, `src/config.rs`, `src/mpris/player.rs`) together with proofs
of the specification's claims about it.

Modelling conventions:
* Rust `u64`/`u32` counters and microsecond quantities are modelled as `Nat`
  (or `Int` where the Rust type is `i64`); `f64` configuration values are
  modelled with exact rational arithmetic (`ℚ`).
* `std::time::Instant` and `chrono::Local` timestamps are both modelled by a
  single global `Nat` clock counted in microseconds.  Each handled event
  advances the clock by a strictly positive amount (the event carries the
  advance), so time is strictly monotone across events — the idealisation of
  monotone wall clocks.
* The `HashMap`s of the monitor are modelled as association lists with
  no-duplicate-key discipline; D-Bus replies consumed inside `add_player`
  (name-owner resolution, initial metadata, initial playback status) are
  modelled as parameters of the `PlayerAppeared` event, i.e. environment
  inputs.
* The database sink is modelled as the list of `TrackState` clones handed to
  `Database::log_play`, in order.
-/

namespace Niandra

/-- `src/track.rs`: `INTRO_START_THRESHOLD_US`. -/
def INTRO_START_THRESHOLD_US : Int := 5000000

/-- `src/track.rs`: `INTRO_SKIP_THRESHOLD_US`. -/
def INTRO_SKIP_THRESHOLD_US : Int := 15000000

/-- `src/track.rs`: `struct Track` (complete track metadata from MPRIS).
Field defaults mirror `Track::default()` (all `None`). -/
structure Track where
  title : Option String := none
  artist : Option String := none
  album : Option String := none
  duration_us : Option Int := none
  file_path : Option String := none
  genre : Option String := none
  album_artist : Option String := none
  track_number : Option Int := none
  disc_number : Option Int := none
  release_date : Option String := none
  art_url : Option String := none
  user_rating : Option ℚ := none
  bpm : Option Int := none
  composer : Option String := none
  musicbrainz_track_id : Option String := none
deriving Repr, DecidableEq

/-- `src/track.rs`: `struct TrackState`.  `start_time` (monotonic) and
`start_timestamp` (wall clock) are both `Nat` microsecond instants of the
global clock.  Field defaults mirror `TrackState::new()`. -/
structure TrackState where
  track : Track := {}
  start_time : Option Nat := none
  start_timestamp : Option Nat := none
  is_playing : Bool := false
  is_local : Bool := false
  player_name : Option String := none
  seek_count : Nat := 0
  intro_skipped : Bool := false
  seek_forward_ms : Int := 0
  seek_backward_ms : Int := 0
  last_position_us : Int := 0
  app_volume : Option ℚ := none
  system_volume : Option ℚ := none
deriving Repr, DecidableEq

/-- `TrackState::new()`. -/
def TrackState.new : TrackState := {}

/-- `TrackState::played_duration`, as microseconds relative to the explicit
current instant `now` (`start_time.map(|start| start.elapsed()).unwrap_or_default()`;
`Nat` subtraction matches elapsed-time never being negative). -/
def TrackState.played_duration (s : TrackState) (now : Nat) : Nat :=
  match s.start_time with
  | some start => now - start
  | none => 0

/-- `TrackState::should_log(min_seconds, min_percent)`; `now` is the implicit
current instant used by `played_duration`.  The `f64` comparison
`played_secs_f64 >= duration_seconds * min_percent` is modelled exactly
over `ℚ`. -/
def TrackState.should_log (s : TrackState) (now : Nat) (min_seconds : Nat)
    (min_percent : ℚ) : Bool :=
  if s.track.title.isNone || s.start_time.isNone then false
  else
    let played_us := s.played_duration now
    let played_seconds := played_us / 1000000
    if played_seconds < min_seconds then false
    else
      match s.track.duration_us with
      | none => true
      | some duration_us =>
        if duration_us ≤ 0 then true
        else
          decide ((duration_us : ℚ) / 1000000 * min_percent ≤ (played_us : ℚ) / 1000000)
            || decide (240 ≤ played_seconds)

/-- `TrackState::on_seeked`.  Rust `i64` division truncates toward zero, which
is `Int.div`; the sequential field mutations of the source all read the
pre-call state, so they are expressed as one record update. -/
def TrackState.on_seeked (s : TrackState) (new_position_us : Int) : TrackState :=
  let delta_us := new_position_us - s.last_position_us
  let delta_ms := Int.tdiv delta_us 1000
  { s with
    seek_count := s.seek_count + 1
    seek_forward_ms :=
      if 0 < delta_us then s.seek_forward_ms + delta_ms else s.seek_forward_ms
    seek_backward_ms :=
      if 0 < delta_us then s.seek_backward_ms else s.seek_backward_ms + |delta_ms|
    intro_skipped :=
      if s.last_position_us < INTRO_START_THRESHOLD_US
          ∧ INTRO_SKIP_THRESHOLD_US < new_position_us then
        true
      else s.intro_skipped
    last_position_us := new_position_us }

/-- `TrackState::start_playing`, at current instant `now` (used for both
`Instant::now()` and `Local::now()` under the single-clock model). -/
def TrackState.start_playing (s : TrackState) (now : Nat) : TrackState :=
  { s with is_playing := true, start_time := some now, start_timestamp := some now }

/-- `TrackState::stop_playing`. -/
def TrackState.stop_playing (s : TrackState) : TrackState :=
  { s with is_playing := false }

/-- `str::contains` for string patterns: substring containment. -/
def strContains (s pat : String) : Bool :=
  decide (pat.toList <:+: s.toList)

/-- `str::starts_with` for string patterns. -/
def strStartsWith (s pat : String) : Bool :=
  decide (pat.toList <+: s.toList)

/-- `name.strip_prefix(MPRIS_PREFIX).unwrap_or(name)` with
`MPRIS_PREFIX = "org.mpris.MediaPlayer2."`. -/
def stripMpris (name : String) : String :=
  if "org.mpris.MediaPlayer2.".toList <+: name.toList then
    String.mk (name.toList.drop "org.mpris.MediaPlayer2.".toList.length)
  else name

/-- `src/track.rs`: `Track::is_local_source`. -/
def Track.is_local_source (t : Track) (local_players : List String)
    (player_name : Option String) : Bool :=
  let by_player :=
    match player_name with
    | some name =>
      let player_id := stripMpris name
      local_players.any fun p => strContains player_id p
    | none => false
  if by_player then true
  else
    match t.file_path with
    | some path =>
      if strStartsWith path "file://" || strStartsWith path "/" then true
      else if strStartsWith path "http://" || strStartsWith path "https://"
          || strStartsWith path "spotify:" || strStartsWith path "deezer:"
          || strStartsWith path "tidal:" then false
      else false
    | none => false

/-- `src/config.rs`: `TrackingConfig`; field defaults mirror
`impl Default for TrackingConfig`. -/
structure TrackingConfig where
  min_play_seconds : Nat := 30
  min_play_percent : ℚ := 1 / 2
  local_only : Bool := true
  track_seeks : Bool := true
  track_volume : Bool := true
  track_context : Bool := true
  idle_timeout_seconds : Nat := 30
deriving Repr, DecidableEq

/-- `src/config.rs`: `PlayerConfig`; field defaults mirror
`impl Default for PlayerConfig`. -/
structure PlayerConfig where
  whitelist : List String := []
  blacklist : List String := []
  local_only_players : List String :=
    ["io.bassi.Amberol", "org.gnome.Lollypop", "org.gnome.Music", "audacious",
     "deadbeef", "quodlibet", "clementine", "strawberry", "rhythmbox",
     "elisa", "sayonara", "cantata"]
deriving Repr, DecidableEq

/-- `src/mpris/player.rs`: `MprisMonitor::should_track_player`
(`player_id = name.strip_prefix(MPRIS_PREFIX).unwrap_or(name)` inlined). -/
def should_track_player (cfg : PlayerConfig) (name : String) : Bool :=
  if cfg.blacklist.any fun p => strContains (stripMpris name) p then false
  else if cfg.whitelist.isEmpty then true
  else cfg.whitelist.any fun p => strContains (stripMpris name) p

/-! ## Association-list model of the monitor's `HashMap`s -/

/-- `HashMap::get` on an association list. -/
def alookup {β : Type} (k : String) : List (String × β) → Option β
  | [] => none
  | kv :: rest => if kv.1 = k then some kv.2 else alookup k rest

/-- `HashMap::remove` on an association list. -/
def aremove {β : Type} (k : String) : List (String × β) → List (String × β)
  | [] => []
  | kv :: rest => if kv.1 = k then aremove k rest else kv :: aremove k rest

/-- `HashMap::get_mut` followed by an in-place mutation `f`. -/
def aupdate {β : Type} (k : String) (f : β → β) : List (String × β) → List (String × β)
  | [] => []
  | kv :: rest =>
    if kv.1 = k then (kv.1, f kv.2) :: aupdate k f rest
    else kv :: aupdate k f rest

/-- `HashMap::insert` on an association list. -/
def ainsert {β : Type} (k : String) (v : β) (l : List (String × β)) :
    List (String × β) :=
  (k, v) :: aremove k l

/-- `map.iter().find(|(_, v)| *v == target).map(|(k, _)| k)`:
reverse lookup in `bus_name_map`. -/
def afindKeyByValue (target : String) : List (String × String) → Option String
  | [] => none
  | kv :: rest => if kv.2 = target then some kv.1 else afindKeyByValue target rest

/-! ## The monitor -/

/-- `src/mpris/player.rs`: `enum MprisEvent`.  `playerAppeared` additionally
carries the environment's D-Bus replies consumed by `add_player`: the resolved
unique connection name (`get_name_owner`), the parsed initial metadata
(`none` when `get_player_metadata` errs) and whether the initial
`PlaybackStatus` reply was `"Playing"`. -/
inductive MprisEvent where
  | trackChanged (player : String) (track : Track) (is_local : Bool)
  | playing (player : String)
  | paused (player : String)
  | stopped (player : String)
  | playerAppeared (player unique : String) (metadata : Option Track)
      (status_playing : Bool)
  | playerDisappeared (player : String)
  | seeked (player : String) (position_us : Int)
deriving Repr, DecidableEq

/-- `src/mpris/player.rs`: the state owned by `MprisMonitor`, plus the sink:
`log` is the sequence of `TrackState` clones handed to `Database::log_play`,
and `clock` the current instant (microseconds). -/
structure Monitor where
  player_config : PlayerConfig
  tracking_config : TrackingConfig
  tracked_players : List (String × TrackState) := []
  bus_name_map : List (String × String) := []
  idle_since : Option Nat := none
  log : List TrackState := []
  clock : Nat := 0
deriving Repr, DecidableEq

/-- `MprisMonitor::log_play`: hands the state clone to the sink unless the
track has no title. -/
def Monitor.log_play (m : Monitor) (s : TrackState) : Monitor :=
  if s.track.title.isNone then m else { m with log := m.log ++ [s] }

/-- The qualification test of `handle_event` (TrackChanged and Paused/Stopped
arms): `state.is_playing && state.should_log(min_play_seconds,
min_play_percent) && (!local_only || state.is_local)`. -/
def Monitor.qualifies (m : Monitor) (now : Nat) (state : TrackState) : Bool :=
  state.is_playing
    && state.should_log now m.tracking_config.min_play_seconds
      m.tracking_config.min_play_percent
    && (!m.tracking_config.local_only || state.is_local)

/-- The final qualification test of `remove_player`
(`state.is_playing && state.should_log(..)`) — the source applies no
`local_only` gate at this site. -/
def Monitor.qualifies_exit (m : Monitor) (now : Nat) (state : TrackState) : Bool :=
  state.is_playing
    && state.should_log now m.tracking_config.min_play_seconds
      m.tracking_config.min_play_percent

/-- The per-state mutation of the TrackChanged arm: install the new track and
`is_local`, reset the seek counters, and restart the play clock when the
player is currently playing. -/
def trackChangedUpdate (now : Nat) (track : Track) (is_local : Bool)
    (state : TrackState) : TrackState :=
  let state :=
    { state with
      track := track
      is_local := is_local
      seek_count := 0
      intro_skipped := false
      seek_forward_ms := 0
      seek_backward_ms := 0
      last_position_us := 0 }
  if state.is_playing then state.start_playing now else state

/-- The per-state mutation of the Playing arm: start the clock unless already
playing. -/
def playingUpdate (now : Nat) (state : TrackState) : TrackState :=
  if !state.is_playing then state.start_playing now else state

/-- `MprisMonitor::add_player` at instant `now`.  `unique` is the resolved
unique connection name, `metadata` the parsed initial metadata (`none` on a
D-Bus error) and `status_playing` whether the initial status was `"Playing"`. -/
def Monitor.add_player (m : Monitor) (now : Nat) (well_known unique : String)
    (metadata : Option Track) (status_playing : Bool) : Monitor :=
  if (alookup unique m.tracked_players).isSome then m
  else
    let pname := stripMpris well_known
    let state : TrackState := { TrackState.new with player_name := some pname }
    let state :=
      match metadata with
      | some track =>
        { state with
          track := track
          is_local := track.is_local_source m.player_config.local_only_players
            (some pname) }
      | none => state
    let state := if status_playing then state.start_playing now else state
    { m with
      tracked_players := ainsert unique state m.tracked_players
      bus_name_map := ainsert unique well_known m.bus_name_map
      idle_since := none }

/-- `MprisMonitor::remove_player` at instant `now`: reverse-lookup the unique
name, remove the state (logging a final qualifying play — note the source
applies no `local_only` gate here), drop the bus-name mapping, and arm the
idle timer when the registry empties. -/
def Monitor.remove_player (m : Monitor) (now : Nat) (well_known : String) : Monitor :=
  match afindKeyByValue well_known m.bus_name_map with
  | none => m
  | some unique =>
    let m1 :=
      match alookup unique m.tracked_players with
      | some state =>
        let m1 := { m with tracked_players := aremove unique m.tracked_players }
        if m.qualifies_exit now state then m1.log_play state else m1
      | none => m
    let m2 := { m1 with bus_name_map := aremove unique m1.bus_name_map }
    if m2.tracked_players.isEmpty then { m2 with idle_since := some now } else m2

/-- `MprisMonitor::handle_event` at instant `now` (the clock field itself is
advanced by `Monitor.step`). -/
def Monitor.handle_event (m : Monitor) (now : Nat) : MprisEvent → Monitor
  | .playerAppeared player unique metadata status_playing =>
    if should_track_player m.player_config player then
      m.add_player now player unique metadata status_playing
    else m
  | .playerDisappeared player => m.remove_player now player
  | .trackChanged player track is_local =>
    let state_to_log :=
      match alookup player m.tracked_players with
      | some state => if m.qualifies now state then some state else none
      | none => none
    let m1 :=
      { m with
        tracked_players :=
          aupdate player (trackChangedUpdate now track is_local) m.tracked_players }
    match state_to_log with
    | some state => m1.log_play state
    | none => m1
  | .playing player =>
    { m with
      tracked_players := aupdate player (playingUpdate now) m.tracked_players }
  | .paused player | .stopped player =>
    let state_to_log :=
      match alookup player m.tracked_players with
      | some state => if m.qualifies now state then some state else none
      | none => none
    let m1 :=
      { m with
        tracked_players := aupdate player TrackState.stop_playing m.tracked_players }
    match state_to_log with
    | some state => m1.log_play state
    | none => m1
  | .seeked player position_us =>
    if m.tracking_config.track_seeks then
      { m with
        tracked_players := aupdate player (fun state => state.on_seeked position_us)
          m.tracked_players }
    else m

/-- One step of the event loop: the event carries the (nonnegative) extra time
`dt` elapsed since the previous event; the handling instant is
`clock + dt + 1`, so the clock is strictly monotone. -/
def Monitor.step (m : Monitor) (de : Nat × MprisEvent) : Monitor :=
  let now := m.clock + de.1 + 1
  { m.handle_event now de.2 with clock := now }

/-- Driving a whole event sequence through the handler. -/
def Monitor.run (m : Monitor) (es : List (Nat × MprisEvent)) : Monitor :=
  es.foldl Monitor.step m

/-- The monitor as constructed by `MprisMonitor::new` (empty registry,
no sink writes yet). -/
def Monitor.init (pc : PlayerConfig) (tc : TrackingConfig) : Monitor :=
  { player_config := pc, tracking_config := tc }

/-! ## Concrete instances used by counterexamples and witnesses -/

/-- A track state mid-episode: playing since instant 7. -/
def s4c : TrackState :=
  { TrackState.new with
    track := { title := some "A" }
    start_time := some 7
    start_timestamp := some 7
    is_playing := true }

/-- Event sequence for the missing `local_only` gate: a non-local player
(`http://` URL) appears already playing, plays for 40 s, then disappears. -/
def evC3 : List (Nat × MprisEvent) :=
  [(0, .playerAppeared "org.mpris.MediaPlayer2.spotify" ":1.5"
      (some { title := some "A", file_path := some "http://x" }) true),
   (40000000, .playerDisappeared "org.mpris.MediaPlayer2.spotify")]

/-- A monitor with seek tracking disabled and one tracked player. -/
def m6 : Monitor :=
  { player_config := {}
    tracking_config := { track_seeks := false }
    tracked_players := [(":1.9", TrackState.new)]
    bus_name_map := [(":1.9", "org.mpris.MediaPlayer2.mpv")] }

/-- A monitor with one tracked player mid-episode (for the duplicate
`PlayerAppeared` and seek-reset witnesses). -/
def m10 : Monitor :=
  { player_config := {}
    tracking_config := {}
    tracked_players := [(":1.7", { s4c with seek_count := 3 })]
    bus_name_map := [(":1.7", "org.mpris.MediaPlayer2.mpv")]
    clock := 20 }

/-- The state of `m10`'s player after a `TrackChanged` handled at instant 21:
fresh episode, seek counters reset. -/
def s7r : TrackState :=
  { TrackState.new with
    is_playing := true
    start_time := some 21
    start_timestamp := some 21 }

/-- The inductive invariant for the no-double-log property: registry keys are
distinct; every `start_timestamp` in the registry or the sink is at most the
clock; sink records carry distinct, present timestamps; and a currently
playing episode's timestamp is absent from the sink and distinct from every
other playing episode's. -/
structure MonitorInv (m : Monitor) : Prop where
  keysN : (m.tracked_players.map Prod.fst).Nodup
  stLe : ∀ kv ∈ m.tracked_players, ∀ t, kv.2.start_timestamp = some t → t ≤ m.clock
  logLe : ∀ r ∈ m.log, ∀ t, r.start_timestamp = some t → t ≤ m.clock
  logSome : ∀ r ∈ m.log, r.start_timestamp ≠ none
  logND : (m.log.map TrackState.start_timestamp).Nodup
  pSome : ∀ kv ∈ m.tracked_players, kv.2.is_playing = true →
    kv.2.start_timestamp ≠ none
  pFresh : ∀ kv ∈ m.tracked_players, kv.2.is_playing = true →
    ∀ r ∈ m.log, r.start_timestamp ≠ kv.2.start_timestamp
  pDist : ∀ kv ∈ m.tracked_players, ∀ kv2 ∈ m.tracked_players, kv.1 ≠ kv2.1 →
    kv.2.is_playing = true → kv2.2.is_playing = true →
    kv.2.start_timestamp ≠ kv2.2.start_timestamp

/-! ## Helper lemmas on the association-list operations -/

theorem alookup_aupdate_self {β : Type} (k : String) (f : β → β)
    (l : List (String × β)) :
    alookup k (aupdate k f l) = (alookup k l).map f := by
  induction l with
  | nil => rfl
  | cons kv rest ih =>
    by_cases h : kv.1 = k
    · simp [aupdate, alookup, h]
    · simp [aupdate, alookup, h, ih]

theorem alookup_aupdate_ne {β : Type} {k' k : String} (h : k' ≠ k) (f : β → β)
    (l : List (String × β)) :
    alookup k' (aupdate k f l) = alookup k' l := by
  have hk : ¬ (k = k') := fun hk => h hk.symm
  induction l with
  | nil => rfl
  | cons kv rest ih =>
    by_cases h1 : kv.1 = k
    · have h2 : kv.1 ≠ k' := h1 ▸ fun hk => h hk.symm
      simp [aupdate, alookup, h1, h2, ih, hk]
    · by_cases h2 : kv.1 = k'
      · simp [aupdate, alookup, h1, h2, ih, h]
      · simp [aupdate, alookup, h1, h2, ih]

theorem alookup_aremove_self {β : Type} (k : String) (l : List (String × β)) :
    alookup k (aremove k l) = none := by
  induction l with
  | nil => rfl
  | cons kv rest ih =>
    by_cases h : kv.1 = k
    · simp [aremove, h, ih]
    · simp [aremove, alookup, h, ih]

theorem alookup_aremove_ne {β : Type} {k' k : String} (h : k' ≠ k)
    (l : List (String × β)) :
    alookup k' (aremove k l) = alookup k' l := by
  have hk : ¬ (k = k') := fun hk => h hk.symm
  induction l with
  | nil => rfl
  | cons kv rest ih =>
    by_cases h1 : kv.1 = k
    · have h2 : kv.1 ≠ k' := h1 ▸ fun hk => h hk.symm
      simp [aremove, alookup, h1, h2, ih, hk]
    · by_cases h2 : kv.1 = k'
      · simp [aremove, alookup, h1, h2, ih, h]
      · simp [aremove, alookup, h1, h2, ih]

theorem alookup_ainsert_self {β : Type} (k : String) (v : β)
    (l : List (String × β)) :
    alookup k (ainsert k v l) = some v := by
  simp [ainsert, alookup]

theorem alookup_ainsert_ne {β : Type} {k' k : String} (h : k' ≠ k) (v : β)
    (l : List (String × β)) :
    alookup k' (ainsert k v l) = alookup k' l := by
  have hk : ¬ (k = k') := fun hk => h hk.symm
  simp only [ainsert, alookup, hk, if_false]
  exact alookup_aremove_ne h l

/-- `log_play` touches only the sink. -/
theorem log_play_tracked (m : Monitor) (s : TrackState) :
    (m.log_play s).tracked_players = m.tracked_players := by
  unfold Monitor.log_play
  split <;> rfl

theorem log_play_busmap (m : Monitor) (s : TrackState) :
    (m.log_play s).bus_name_map = m.bus_name_map := by
  unfold Monitor.log_play
  split <;> rfl

theorem log_play_idle (m : Monitor) (s : TrackState) :
    (m.log_play s).idle_since = m.idle_since := by
  unfold Monitor.log_play
  split <;> rfl

theorem log_play_clock (m : Monitor) (s : TrackState) :
    (m.log_play s).clock = m.clock := by
  unfold Monitor.log_play
  split <;> rfl

theorem mem_aupdate {β : Type} {kv' : String × β} {k : String} {f : β → β}
    {l : List (String × β)} (h : kv' ∈ aupdate k f l) :
    (kv' ∈ l ∧ kv'.1 ≠ k) ∨ ∃ v, (k, v) ∈ l ∧ kv' = (k, f v) := by
  induction l with
  | nil => cases h
  | cons kv rest ih =>
    by_cases hk : kv.1 = k
    · rw [aupdate, if_pos hk] at h
      rcases List.mem_cons.mp h with heq | h2
      · right
        refine ⟨kv.2, ?_, by rw [heq, hk]⟩
        rw [← hk]
        exact List.mem_cons_self _ _
      · rcases ih h2 with ⟨hm, hne⟩ | ⟨v, hv, heq⟩
        · exact Or.inl ⟨List.mem_cons_of_mem _ hm, hne⟩
        · exact Or.inr ⟨v, List.mem_cons_of_mem _ hv, heq⟩
    · rw [aupdate, if_neg hk] at h
      rcases List.mem_cons.mp h with heq | h2
      · left
        exact ⟨heq ▸ List.mem_cons_self _ _, heq ▸ hk⟩
      · rcases ih h2 with ⟨hm, hne⟩ | ⟨v, hv, heq⟩
        · exact Or.inl ⟨List.mem_cons_of_mem _ hm, hne⟩
        · exact Or.inr ⟨v, List.mem_cons_of_mem _ hv, heq⟩

theorem keys_aupdate {β : Type} (k : String) (f : β → β) (l : List (String × β)) :
    (aupdate k f l).map Prod.fst = l.map Prod.fst := by
  induction l with
  | nil => rfl
  | cons kv rest ih =>
    by_cases hk : kv.1 = k
    · rw [aupdate, if_pos hk]
      simp only [List.map_cons, ih]
    · rw [aupdate, if_neg hk]
      simp only [List.map_cons, ih]

theorem mem_aremove {β : Type} {kv : String × β} {k : String}
    {l : List (String × β)} (h : kv ∈ aremove k l) : kv ∈ l ∧ kv.1 ≠ k := by
  induction l with
  | nil => cases h
  | cons kv0 rest ih =>
    by_cases hk : kv0.1 = k
    · rw [aremove, if_pos hk] at h
      rcases ih h with ⟨hm, hne⟩
      exact ⟨List.mem_cons_of_mem _ hm, hne⟩
    · rw [aremove, if_neg hk] at h
      rcases List.mem_cons.mp h with heq | h2
      · exact ⟨heq ▸ List.mem_cons_self _ _, heq ▸ hk⟩
      · rcases ih h2 with ⟨hm, hne⟩
        exact ⟨List.mem_cons_of_mem _ hm, hne⟩

theorem keys_aremove_sublist {β : Type} (k : String) (l : List (String × β)) :
    ((aremove k l).map Prod.fst).Sublist (l.map Prod.fst) := by
  induction l with
  | nil => exact List.Sublist.refl _
  | cons kv rest ih =>
    by_cases hk : kv.1 = k
    · rw [aremove, if_pos hk]
      exact ih.trans (List.sublist_cons_self _ _)
    · rw [aremove, if_neg hk]
      simp only [List.map_cons]
      exact ih.cons₂ _

theorem mem_ainsert {β : Type} {kv : String × β} {k : String} {v : β}
    {l : List (String × β)} (h : kv ∈ ainsert k v l) :
    kv = (k, v) ∨ (kv ∈ l ∧ kv.1 ≠ k) := by
  rcases List.mem_cons.mp h with heq | h2
  · exact Or.inl heq
  · exact Or.inr (mem_aremove h2)

theorem keys_ainsert_nodup {β : Type} {k : String} {v : β}
    {l : List (String × β)} (h : (l.map Prod.fst).Nodup) :
    ((ainsert k v l).map Prod.fst).Nodup := by
  simp only [ainsert, List.map_cons]
  refine List.Nodup.cons ?_ (h.sublist (keys_aremove_sublist k l))
  intro hmem
  rcases List.mem_map.mp hmem with ⟨kv, hkv, hfst⟩
  exact (mem_aremove hkv).2 hfst

theorem alookup_eq_some_mem {β : Type} {k : String} {v : β}
    {l : List (String × β)} (h : alookup k l = some v) : (k, v) ∈ l := by
  induction l with
  | nil => cases h
  | cons kv rest ih =>
    by_cases hk : kv.1 = k
    · rw [alookup, if_pos hk] at h
      rw [← hk, ← Option.some.inj h]
      exact List.mem_cons_self _ _
    · rw [alookup, if_neg hk] at h
      exact List.mem_cons_of_mem _ (ih h)

theorem stop_playing_ts (s : TrackState) :
    (TrackState.stop_playing s).start_timestamp = s.start_timestamp := rfl

theorem stop_playing_not_playing (s : TrackState) :
    (TrackState.stop_playing s).is_playing = false := rfl

theorem on_seeked_ts (s : TrackState) (pos : Int) :
    (s.on_seeked pos).start_timestamp = s.start_timestamp := rfl

theorem on_seeked_is_playing (s : TrackState) (pos : Int) :
    (s.on_seeked pos).is_playing = s.is_playing := rfl

theorem playingUpdate_is_playing (now : Nat) (s : TrackState) :
    (playingUpdate now s).is_playing = true := by
  unfold playingUpdate TrackState.start_playing
  by_cases h : s.is_playing = true <;> simp [h]

theorem playingUpdate_ts (now : Nat) (s : TrackState) :
    (playingUpdate now s).start_timestamp =
      if s.is_playing = true then s.start_timestamp else some now := by
  unfold playingUpdate TrackState.start_playing
  by_cases h : s.is_playing = true <;> simp [h]

theorem trackChangedUpdate_is_playing (now : Nat) (tr : Track) (il : Bool)
    (s : TrackState) :
    (trackChangedUpdate now tr il s).is_playing = s.is_playing := by
  unfold trackChangedUpdate TrackState.start_playing
  by_cases h : s.is_playing = true <;> simp [h]

theorem trackChangedUpdate_ts (now : Nat) (tr : Track) (il : Bool)
    (s : TrackState) :
    (trackChangedUpdate now tr il s).start_timestamp =
      if s.is_playing = true then some now else s.start_timestamp := by
  unfold trackChangedUpdate TrackState.start_playing
  by_cases h : s.is_playing = true <;> simp [h]

theorem qualifies_is_playing {m : Monitor} {now : Nat} {s : TrackState}
    (h : m.qualifies now s = true) : s.is_playing = true := by
  unfold Monitor.qualifies at h
  simp only [Bool.and_eq_true] at h
  exact h.1.1

theorem qualifies_exit_is_playing {m : Monitor} {now : Nat} {s : TrackState}
    (h : m.qualifies_exit now s = true) : s.is_playing = true := by
  unfold Monitor.qualifies_exit at h
  simp only [Bool.and_eq_true] at h
  exact h.1

theorem should_log_title {s : TrackState} {now mins : Nat} {minp : ℚ}
    (h : s.should_log now mins minp = true) : s.track.title.isNone = false := by
  unfold TrackState.should_log at h
  by_contra hc
  rw [Bool.not_eq_false] at hc
  rw [hc, Bool.true_or, if_pos rfl] at h
  cases h

theorem qualifies_title {m : Monitor} {now : Nat} {s : TrackState}
    (h : m.qualifies now s = true) : s.track.title.isNone = false := by
  unfold Monitor.qualifies at h
  simp only [Bool.and_eq_true] at h
  exact should_log_title h.1.2

theorem qualifies_exit_title {m : Monitor} {now : Nat} {s : TrackState}
    (h : m.qualifies_exit now s = true) : s.track.title.isNone = false := by
  unfold Monitor.qualifies_exit at h
  simp only [Bool.and_eq_true] at h
  exact should_log_title h.2

theorem nodup_append_single {α : Type} {l : List α} {a : α} (h : l.Nodup)
    (ha : a ∉ l) : (l ++ [a]).Nodup := by
  simp [List.nodup_append, h, ha]

theorem tracked_trackChanged (m : Monitor) (now : Nat) (q : String) (tr : Track)
    (il : Bool) :
    (m.handle_event now (.trackChanged q tr il)).tracked_players =
      aupdate q (trackChangedUpdate now tr il) m.tracked_players := by
  simp only [Monitor.handle_event]
  rcases h : alookup q m.tracked_players with _ | s0
  · rfl
  · dsimp only
    by_cases hq : m.qualifies now s0 = true
    · rw [if_pos hq]
      exact log_play_tracked _ _
    · rw [if_neg hq]

theorem tracked_paused (m : Monitor) (now : Nat) (q : String) :
    (m.handle_event now (.paused q)).tracked_players =
      aupdate q TrackState.stop_playing m.tracked_players := by
  simp only [Monitor.handle_event]
  rcases h : alookup q m.tracked_players with _ | s0
  · rfl
  · dsimp only
    by_cases hq : m.qualifies now s0 = true
    · rw [if_pos hq]
      exact log_play_tracked _ _
    · rw [if_neg hq]

theorem tracked_stopped (m : Monitor) (now : Nat) (q : String) :
    (m.handle_event now (.stopped q)).tracked_players =
      aupdate q TrackState.stop_playing m.tracked_players := by
  simp only [Monitor.handle_event]
  rcases h : alookup q m.tracked_players with _ | s0
  · rfl
  · dsimp only
    by_cases hq : m.qualifies now s0 = true
    · rw [if_pos hq]
      exact log_play_tracked _ _
    · rw [if_neg hq]

theorem tracked_appeared (m : Monitor) (now : Nat) (wk u : String)
    (meta : Option Track) (status : Bool) :
    (m.handle_event now (.playerAppeared wk u meta status)).tracked_players =
      m.tracked_players
    ∨ (alookup u m.tracked_players = none ∧
       ∃ s0, (m.handle_event now (.playerAppeared wk u meta status)).tracked_players =
         ainsert u s0 m.tracked_players) := by
  simp only [Monitor.handle_event]
  by_cases hf : should_track_player m.player_config wk = true
  · rw [if_pos hf]
    unfold Monitor.add_player
    rcases h : alookup u m.tracked_players with _ | s0
    · right
      exact ⟨rfl, _, rfl⟩
    · left; rfl
  · rw [if_neg hf]
    left; rfl

theorem tracked_disappeared (m : Monitor) (now : Nat) (wk : String) :
    (m.handle_event now (.playerDisappeared wk)).tracked_players =
      m.tracked_players
    ∨ ∃ u, (m.handle_event now (.playerDisappeared wk)).tracked_players =
        aremove u m.tracked_players := by
  simp only [Monitor.handle_event]
  unfold Monitor.remove_player
  rcases hu : afindKeyByValue wk m.bus_name_map with _ | u
  · left; rfl
  · dsimp only
    rcases h : alookup u m.tracked_players with _ | s0
    · left
      dsimp only
      split <;> rfl
    · right
      refine ⟨u, ?_⟩
      dsimp only
      by_cases hq : m.qualifies_exit now s0 = true
      · rw [if_pos hq]
        split
        · exact log_play_tracked _ _
        · exact log_play_tracked _ _
      · rw [if_neg hq]
        split <;> rfl

theorem log_play_log (m : Monitor) (s : TrackState) :
    (m.log_play s).log =
      if s.track.title.isNone = true then m.log else m.log ++ [s] := by
  unfold Monitor.log_play
  split <;> rfl

theorem log_paused (m : Monitor) (now : Nat) (q : String) :
    (m.handle_event now (.paused q)).log =
      (match alookup q m.tracked_players with
       | some s0 => if m.qualifies now s0 = true then m.log ++ [s0] else m.log
       | none => m.log) := by
  simp only [Monitor.handle_event]
  rcases h : alookup q m.tracked_players with _ | s0
  · rfl
  · dsimp only
    by_cases hq : m.qualifies now s0 = true
    · rw [if_pos hq, if_pos hq, log_play_log, qualifies_title hq]
      rfl
    · rw [if_neg hq, if_neg hq]

theorem log_stopped (m : Monitor) (now : Nat) (q : String) :
    (m.handle_event now (.stopped q)).log =
      (match alookup q m.tracked_players with
       | some s0 => if m.qualifies now s0 = true then m.log ++ [s0] else m.log
       | none => m.log) := by
  simp only [Monitor.handle_event]
  rcases h : alookup q m.tracked_players with _ | s0
  · rfl
  · dsimp only
    by_cases hq : m.qualifies now s0 = true
    · rw [if_pos hq, if_pos hq, log_play_log, qualifies_title hq]
      rfl
    · rw [if_neg hq, if_neg hq]

theorem log_trackChanged (m : Monitor) (now : Nat) (q : String) (tr : Track)
    (il : Bool) :
    (m.handle_event now (.trackChanged q tr il)).log =
      (match alookup q m.tracked_players with
       | some s0 => if m.qualifies now s0 = true then m.log ++ [s0] else m.log
       | none => m.log) := by
  simp only [Monitor.handle_event]
  rcases h : alookup q m.tracked_players with _ | s0
  · rfl
  · dsimp only
    by_cases hq : m.qualifies now s0 = true
    · rw [if_pos hq, if_pos hq, log_play_log, qualifies_title hq]
      rfl
    · rw [if_neg hq, if_neg hq]

theorem log_playing (m : Monitor) (now : Nat) (q : String) :
    (m.handle_event now (.playing q)).log = m.log := rfl

theorem log_seeked (m : Monitor) (now : Nat) (q : String) (pos : Int) :
    (m.handle_event now (.seeked q pos)).log = m.log := by
  simp only [Monitor.handle_event]
  split <;> rfl

theorem appeared_cases (m : Monitor) (now : Nat) (wk u : String)
    (meta : Option Track) (status : Bool) :
    ((m.handle_event now (.playerAppeared wk u meta status)).tracked_players =
        m.tracked_players ∧
     (m.handle_event now (.playerAppeared wk u meta status)).log = m.log)
    ∨ (alookup u m.tracked_players = none ∧
       (m.handle_event now (.playerAppeared wk u meta status)).log = m.log ∧
       ∃ s0, (m.handle_event now (.playerAppeared wk u meta status)).tracked_players =
           ainsert u s0 m.tracked_players ∧
         (s0.is_playing = true → s0.start_timestamp = some now) ∧
         (s0.is_playing = false → s0.start_timestamp = none)) := by
  simp only [Monitor.handle_event]
  by_cases hf : should_track_player m.player_config wk = true
  · rw [if_pos hf]
    unfold Monitor.add_player
    rcases h : alookup u m.tracked_players with _ | s0
    · right
      rcases meta with _ | tr <;> cases status
      · exact ⟨rfl, rfl, _, rfl, fun htrue => Bool.noConfusion htrue, fun _ => rfl⟩
      · exact ⟨rfl, rfl, _, rfl, fun _ => rfl, fun hfalse => Bool.noConfusion hfalse⟩
      · exact ⟨rfl, rfl, _, rfl, fun htrue => Bool.noConfusion htrue, fun _ => rfl⟩
      · exact ⟨rfl, rfl, _, rfl, fun _ => rfl, fun hfalse => Bool.noConfusion hfalse⟩
    · left
      exact ⟨rfl, rfl⟩
  · rw [if_neg hf]
    left
    exact ⟨rfl, rfl⟩

theorem disappeared_cases (m : Monitor) (now : Nat) (wk : String) :
    ((m.handle_event now (.playerDisappeared wk)).tracked_players =
        m.tracked_players ∧
     (m.handle_event now (.playerDisappeared wk)).log = m.log)
    ∨ ∃ u s0, alookup u m.tracked_players = some s0 ∧
        (m.handle_event now (.playerDisappeared wk)).tracked_players =
          aremove u m.tracked_players ∧
        ((m.handle_event now (.playerDisappeared wk)).log = m.log ∨
         (m.qualifies_exit now s0 = true ∧
          (m.handle_event now (.playerDisappeared wk)).log = m.log ++ [s0])) := by
  simp only [Monitor.handle_event]
  unfold Monitor.remove_player
  rcases hu : afindKeyByValue wk m.bus_name_map with _ | u
  · exact Or.inl ⟨rfl, rfl⟩
  · dsimp only
    rcases h : alookup u m.tracked_players with _ | s0
    · left
      constructor
      · dsimp only
        split <;> rfl
      · dsimp only
        split <;> rfl
    · right
      refine ⟨u, s0, h, ?_, ?_⟩
      · dsimp only
        by_cases hq : m.qualifies_exit now s0 = true
        · rw [if_pos hq]
          split
          · exact log_play_tracked _ _
          · exact log_play_tracked _ _
        · rw [if_neg hq]
          split <;> rfl
      · dsimp only
        by_cases hq : m.qualifies_exit now s0 = true
        · right
          refine ⟨hq, ?_⟩
          rw [if_pos hq]
          have hl : ∀ m' : Monitor, (m'.log_play s0).log = m'.log ++ [s0] := by
            intro m'
            rw [log_play_log, qualifies_exit_title hq]
            rfl
          split
          · exact hl _
          · exact hl _
        · left
          rw [if_neg hq]
          split <;> rfl

theorem tracked_playing (m : Monitor) (now : Nat) (q : String) :
    (m.handle_event now (.playing q)).tracked_players =
      aupdate q (playingUpdate now) m.tracked_players := rfl

theorem tracked_seeked (m : Monitor) (now : Nat) (q : String) (pos : Int) :
    (m.handle_event now (.seeked q pos)).tracked_players =
      if m.tracking_config.track_seeks then
        aupdate q (fun st => st.on_seeked pos) m.tracked_players
      else m.tracked_players := by
  simp only [Monitor.handle_event]
  split <;> rfl

theorem tracked_step (m : Monitor) (dt : Nat) (e : MprisEvent) :
    (m.step (dt, e)).tracked_players =
      (m.handle_event (m.clock + dt + 1) e).tracked_players := rfl

theorem playingUpdate_seek_count (now : Nat) (s : TrackState) :
    (playingUpdate now s).seek_count = s.seek_count := by
  unfold playingUpdate TrackState.start_playing
  split <;> rfl

theorem on_seeked_seek_count (s : TrackState) (pos : Int) :
    (s.on_seeked pos).seek_count = s.seek_count + 1 := rfl

theorem trackChangedUpdate_resets (now : Nat) (tr : Track) (il : Bool)
    (s : TrackState) :
    (trackChangedUpdate now tr il s).seek_count = 0 ∧
    (trackChangedUpdate now tr il s).intro_skipped = false ∧
    (trackChangedUpdate now tr il s).seek_forward_ms = 0 ∧
    (trackChangedUpdate now tr il s).seek_backward_ms = 0 ∧
    (trackChangedUpdate now tr il s).last_position_us = 0 := by
  unfold trackChangedUpdate TrackState.start_playing
  by_cases h : s.is_playing = true <;> simp [h]

theorem alookup_unique {β : Type} {l : List (String × β)}
    (hnd : (l.map Prod.fst).Nodup) {k : String} {v w : β}
    (hv : (k, v) ∈ l) (hw : alookup k l = some w) : v = w := by
  induction l with
  | nil => cases hv
  | cons kv rest ih =>
    rw [List.map_cons, List.nodup_cons] at hnd
    rcases List.mem_cons.mp hv with heq | hm
    · have hk : kv.1 = k := by rw [← heq]
      rw [alookup, if_pos hk] at hw
      have h2 : kv.2 = v := by rw [← heq]
      rw [← h2]
      exact Option.some.inj hw
    · by_cases hk : kv.1 = k
      · exact absurd (hk ▸ List.mem_map.mpr ⟨(k, v), hm, rfl⟩) hnd.1
      · rw [alookup, if_neg hk] at hw
        exact ih hnd.2 hm hw

/-- Appending a currently playing registry state to the sink keeps the sink
invariants. -/
theorem log_append_ok {m : Monitor} (h : MonitorInv m) {q : String}
    {s0 : TrackState} (hq : alookup q m.tracked_players = some s0)
    (hp : s0.is_playing = true) :
    (∀ r ∈ m.log ++ [s0], r.start_timestamp ≠ none) ∧
    ((m.log ++ [s0]).map TrackState.start_timestamp).Nodup ∧
    (∀ r ∈ m.log ++ [s0], ∀ t, r.start_timestamp = some t → t ≤ m.clock) := by
  have hmem := alookup_eq_some_mem hq
  refine ⟨?_, ?_, ?_⟩
  · intro r hr
    rcases List.mem_append.mp hr with hr | hr
    · exact h.logSome r hr
    · rw [List.mem_singleton.mp hr]
      exact h.pSome _ hmem hp
  · rw [List.map_append]
    refine nodup_append_single h.logND ?_
    intro hmem2
    rcases List.mem_map.mp hmem2 with ⟨r, hrmem, hrts⟩
    exact h.pFresh _ hmem hp r hrmem hrts
  · intro r hr t ht
    rcases List.mem_append.mp hr with hr | hr
    · exact h.logLe r hr t ht
    · rw [List.mem_singleton.mp hr] at ht
      exact h.stLe _ hmem t ht

/-- Advancing the clock while leaving registry and sink unchanged preserves
the invariant. -/
theorem inv_clock_bump {m : Monitor} {now : Nat} (hnow : m.clock ≤ now)
    (h : MonitorInv m) {M : Monitor}
    (hTP : M.tracked_players = m.tracked_players) (hLOG : M.log = m.log)
    (hCLK : M.clock = now) : MonitorInv M := by
  refine ⟨?_, ?_, ?_, ?_, ?_, ?_, ?_, ?_⟩
  · rw [hTP]
    exact h.keysN
  · intro kv hkv t ht
    rw [hCLK]
    rw [hTP] at hkv
    exact le_trans (h.stLe kv hkv t ht) hnow
  · intro r hr t ht
    rw [hCLK]
    rw [hLOG] at hr
    exact le_trans (h.logLe r hr t ht) hnow
  · intro r hr
    rw [hLOG] at hr
    exact h.logSome r hr
  · rw [hLOG]
    exact h.logND
  · intro kv hkv hpl
    rw [hTP] at hkv
    exact h.pSome kv hkv hpl
  · intro kv hkv hpl r hr
    rw [hTP] at hkv
    rw [hLOG] at hr
    exact h.pFresh kv hkv hpl r hr
  · intro kv hkv kv2 hkv2 hne hpl1 hpl2
    rw [hTP] at hkv hkv2
    exact h.pDist kv hkv kv2 hkv2 hne hpl1 hpl2

/-- Inserting a fresh player (key not yet tracked, timestamp `now` when
playing, absent otherwise) preserves the invariant at clock `now`. -/
theorem inv_insert_shape {m : Monitor} {now : Nat} (hnow : m.clock < now)
    (h : MonitorInv m) {u : String} {s0 : TrackState}
    (hpl : s0.is_playing = true → s0.start_timestamp = some now)
    (hnp : s0.is_playing = false → s0.start_timestamp = none)
    {M : Monitor} (hTP : M.tracked_players = ainsert u s0 m.tracked_players)
    (hLOG : M.log = m.log) (hCLK : M.clock = now) : MonitorInv M := by
  refine ⟨?_, ?_, ?_, ?_, ?_, ?_, ?_, ?_⟩
  · rw [hTP]
    exact keys_ainsert_nodup h.keysN
  · intro kv hkv t ht
    rw [hCLK]
    rw [hTP] at hkv
    rcases mem_ainsert hkv with rfl | ⟨hm, -⟩
    · rcases Bool.eq_false_or_eq_true s0.is_playing with htr | hf
      · rw [hpl htr] at ht
        rw [← Option.some.inj ht]
      · rw [hnp hf] at ht
        cases ht
    · exact le_trans (h.stLe kv hm t ht) (le_of_lt hnow)
  · intro r hr t ht
    rw [hCLK]
    rw [hLOG] at hr
    exact le_trans (h.logLe r hr t ht) (le_of_lt hnow)
  · intro r hr
    rw [hLOG] at hr
    exact h.logSome r hr
  · rw [hLOG]
    exact h.logND
  · intro kv hkv hpltrue
    rw [hTP] at hkv
    rcases mem_ainsert hkv with rfl | ⟨hm, -⟩
    · rw [hpl hpltrue]
      exact Option.noConfusion
    · exact h.pSome kv hm hpltrue
  · intro kv hkv hpltrue r hr
    rw [hTP] at hkv
    rw [hLOG] at hr
    rcases mem_ainsert hkv with rfl | ⟨hm, -⟩
    · rw [hpl hpltrue]
      intro hcontra
      exact absurd (h.logLe r hr now hcontra) (not_le.mpr hnow)
    · exact h.pFresh kv hm hpltrue r hr
  · intro kv hkv kv2 hkv2 hne hpl1 hpl2
    rw [hTP] at hkv hkv2
    rcases mem_ainsert hkv with rfl | ⟨hm, hne1⟩ <;>
      rcases mem_ainsert hkv2 with heq2 | ⟨hm2, hne2⟩
    · exact absurd (heq2 ▸ rfl) hne
    · rw [hpl hpl1]
      intro hcontra
      rcases hts2 : kv2.2.start_timestamp with _ | t2
      · rw [hts2] at hcontra
        cases hcontra
      · rw [hts2] at hcontra
        rw [← Option.some.inj hcontra] at hts2
        exact absurd (h.stLe kv2 hm2 now hts2) (not_le.mpr hnow)
    · rw [heq2] at hpl2
      rw [heq2, hpl hpl2]
      intro hcontra
      rcases hts1 : kv.2.start_timestamp with _ | t1
      · rw [hts1] at hcontra
        cases hcontra
      · rw [hts1] at hcontra
        rw [Option.some.inj hcontra] at hts1
        exact absurd (h.stLe kv hm now hts1) (not_le.mpr hnow)
    · exact h.pDist kv hm kv2 hm2 hne hpl1 hpl2

/-- Removing a player, optionally logging its (playing) final state,
preserves the invariant at clock `now`. -/
theorem inv_remove_shape {m : Monitor} {now : Nat} (hnow : m.clock < now)
    (h : MonitorInv m) {u : String} {M : Monitor}
    (hTP : M.tracked_players = aremove u m.tracked_players)
    (hLOG : M.log = m.log ∨ ∃ s0, alookup u m.tracked_players = some s0 ∧
      s0.is_playing = true ∧ M.log = m.log ++ [s0])
    (hCLK : M.clock = now) : MonitorInv M := by
  have hLOGmem : ∀ r ∈ M.log, r ∈ m.log ∨
      ∃ s0, alookup u m.tracked_players = some s0 ∧ s0.is_playing = true ∧
        r = s0 := by
    intro r hr
    rcases hLOG with hL | ⟨s0, h0, hp0, hL⟩
    · rw [hL] at hr
      exact Or.inl hr
    · rw [hL] at hr
      rcases List.mem_append.mp hr with hr | hr
      · exact Or.inl hr
      · exact Or.inr ⟨s0, h0, hp0, List.mem_singleton.mp hr⟩
  refine ⟨?_, ?_, ?_, ?_, ?_, ?_, ?_, ?_⟩
  · rw [hTP]
    exact List.Nodup.sublist (keys_aremove_sublist u m.tracked_players) h.keysN
  · intro kv hkv t ht
    rw [hCLK]
    rw [hTP] at hkv
    exact le_trans (h.stLe kv (mem_aremove hkv).1 t ht) (le_of_lt hnow)
  · intro r hr t ht
    rw [hCLK]
    rcases hLOGmem r hr with hrm | ⟨s0, h0, hp0, rfl⟩
    · exact le_trans (h.logLe r hrm t ht) (le_of_lt hnow)
    · exact le_trans (h.stLe _ (alookup_eq_some_mem h0) t ht) (le_of_lt hnow)
  · intro r hr
    rcases hLOGmem r hr with hrm | ⟨s0, h0, hp0, rfl⟩
    · exact h.logSome r hrm
    · exact h.pSome _ (alookup_eq_some_mem h0) hp0
  · rcases hLOG with hL | ⟨s0, h0, hp0, hL⟩
    · rw [hL]
      exact h.logND
    · rw [hL]
      exact (log_append_ok h h0 hp0).2.1
  · intro kv hkv hpl
    rw [hTP] at hkv
    exact h.pSome kv (mem_aremove hkv).1 hpl
  · intro kv hkv hpl r hr
    rw [hTP] at hkv
    rcases mem_aremove hkv with ⟨hm, hneu⟩
    rcases hLOGmem r hr with hrm | ⟨s0, h0, hp0, rfl⟩
    · exact h.pFresh kv hm hpl r hrm
    · exact h.pDist _ (alookup_eq_some_mem h0) kv hm (Ne.symm hneu) hp0 hpl
  · intro kv hkv kv2 hkv2 hne hpl1 hpl2
    rw [hTP] at hkv hkv2
    exact h.pDist kv (mem_aremove hkv).1 kv2 (mem_aremove hkv2).1 hne hpl1 hpl2

/-- The common shape of the TrackChanged / Playing / Paused / Stopped / Seeked
arms: one key's state is rewritten by `g`, and optionally that key's previous
(playing) state is appended to the sink.  `g` must stamp `now` or inherit the
previous timestamp, may keep a state playing only if it stamps `now` or the
state was already playing, and must stamp `now` on a state it keeps playing
after that state was logged. -/
theorem inv_update_shape {m : Monitor} {now : Nat} (hnow : m.clock < now)
    (h : MonitorInv m) {q : String} {g : TrackState → TrackState}
    (hgA : ∀ v, (g v).start_timestamp = v.start_timestamp ∨
      (g v).start_timestamp = some now)
    (hgB : ∀ v, (g v).is_playing = true →
      (g v).start_timestamp = some now ∨
      (v.is_playing = true ∧ (g v).start_timestamp = v.start_timestamp))
    {M : Monitor} (hTP : M.tracked_players = aupdate q g m.tracked_players)
    (hLOG : M.log = m.log ∨ ∃ s0, alookup q m.tracked_players = some s0 ∧
      s0.is_playing = true ∧ M.log = m.log ++ [s0] ∧
      ((g s0).is_playing = true → (g s0).start_timestamp = some now))
    (hCLK : M.clock = now) : MonitorInv M := by
  have hLOGmem : ∀ r ∈ M.log, r ∈ m.log ∨
      ∃ s0, alookup q m.tracked_players = some s0 ∧ s0.is_playing = true ∧
        r = s0 := by
    intro r hr
    rcases hLOG with hL | ⟨s0, h0, hp0, hL, -⟩
    · rw [hL] at hr
      exact Or.inl hr
    · rw [hL] at hr
      rcases List.mem_append.mp hr with hr | hr
      · exact Or.inl hr
      · exact Or.inr ⟨s0, h0, hp0, List.mem_singleton.mp hr⟩
  refine ⟨?_, ?_, ?_, ?_, ?_, ?_, ?_, ?_⟩
  · rw [hTP, keys_aupdate]
    exact h.keysN
  · intro kv hkv t ht
    rw [hCLK]
    rw [hTP] at hkv
    rcases mem_aupdate hkv with ⟨hm, -⟩ | ⟨v, hv, heq⟩
    · exact le_trans (h.stLe kv hm t ht) (le_of_lt hnow)
    · have h2 : kv.2 = g v := by rw [heq]
      rw [h2] at ht
      rcases hgA v with hA | hA
      · rw [hA] at ht
        exact le_trans (h.stLe (q, v) hv t ht) (le_of_lt hnow)
      · rw [hA] at ht
        rw [← Option.some.inj ht]
  · intro r hr t ht
    rw [hCLK]
    rcases hLOGmem r hr with hrm | ⟨s0, h0, hp0, rfl⟩
    · exact le_trans (h.logLe r hrm t ht) (le_of_lt hnow)
    · exact le_trans (h.stLe _ (alookup_eq_some_mem h0) t ht) (le_of_lt hnow)
  · intro r hr
    rcases hLOGmem r hr with hrm | ⟨s0, h0, hp0, rfl⟩
    · exact h.logSome r hrm
    · exact h.pSome _ (alookup_eq_some_mem h0) hp0
  · rcases hLOG with hL | ⟨s0, h0, hp0, hL, -⟩
    · rw [hL]
      exact h.logND
    · rw [hL]
      exact (log_append_ok h h0 hp0).2.1
  · intro kv hkv hpl
    rw [hTP] at hkv
    rcases mem_aupdate hkv with ⟨hm, -⟩ | ⟨v, hv, heq⟩
    · exact h.pSome kv hm hpl
    · have h2 : kv.2 = g v := by rw [heq]
      have hplg : (g v).is_playing = true := by
        rw [← h2]
        exact hpl
      rw [h2]
      rcases hgB v hplg with hB | ⟨hvp, hB⟩
      · rw [hB]
        exact Option.noConfusion
      · rw [hB]
        exact h.pSome (q, v) hv hvp
  · intro kv hkv hpl r hr
    rw [hTP] at hkv
    rcases hLOG with hL | ⟨s0, h0, hp0, hL, hC⟩
    · rw [hL] at hr
      rcases mem_aupdate hkv with ⟨hm, -⟩ | ⟨v, hv, heq⟩
      · exact h.pFresh kv hm hpl r hr
      · have h2 : kv.2 = g v := by rw [heq]
        have hplg : (g v).is_playing = true := by
          rw [← h2]
          exact hpl
        rw [h2]
        rcases hgB v hplg with hB | ⟨hvp, hB⟩
        · rw [hB]
          intro hc
          exact absurd (h.logLe r hr now hc) (not_le.mpr hnow)
        · rw [hB]
          exact h.pFresh (q, v) hv hvp r hr
    · rw [hL] at hr
      rcases List.mem_append.mp hr with hrm | hrs
      · rcases mem_aupdate hkv with ⟨hm, -⟩ | ⟨v, hv, heq⟩
        · exact h.pFresh kv hm hpl r hrm
        · have h2 : kv.2 = g v := by rw [heq]
          have hplg : (g v).is_playing = true := by
            rw [← h2]
            exact hpl
          rw [h2]
          rcases hgB v hplg with hB | ⟨hvp, hB⟩
          · rw [hB]
            intro hc
            exact absurd (h.logLe r hrm now hc) (not_le.mpr hnow)
          · rw [hB]
            exact h.pFresh (q, v) hv hvp r hrm
      · rw [List.mem_singleton.mp hrs]
        rcases mem_aupdate hkv with ⟨hm, hneq⟩ | ⟨v, hv, heq⟩
        · exact h.pDist _ (alookup_eq_some_mem h0) kv hm (Ne.symm hneq) hp0 hpl
        · have h2 : kv.2 = g v := by rw [heq]
          have hplg : (g v).is_playing = true := by
            rw [← h2]
            exact hpl
          have hveq : v = s0 := alookup_unique h.keysN hv h0
          have hCg : (g v).start_timestamp = some now := by
            rw [hveq]
            exact hC (by rw [← hveq]; exact hplg)
          rw [h2, hCg]
          intro hc
          exact absurd (h.stLe _ (alookup_eq_some_mem h0) now hc) (not_le.mpr hnow)
  · intro kv hkv kv2 hkv2 hne hpl1 hpl2
    rw [hTP] at hkv hkv2
    rcases mem_aupdate hkv with ⟨hm, hneq⟩ | ⟨v, hv, heq⟩ <;>
      rcases mem_aupdate hkv2 with ⟨hm2, hneq2⟩ | ⟨v2, hv2, heq2⟩
    · exact h.pDist kv hm kv2 hm2 hne hpl1 hpl2
    · have h22 : kv2.2 = g v2 := by rw [heq2]
      have hplg2 : (g v2).is_playing = true := by
        rw [← h22]
        exact hpl2
      rw [h22]
      rcases hgB v2 hplg2 with hB | ⟨hvp, hB⟩
      · rw [hB]
        intro hc
        exact absurd (h.stLe kv hm now hc) (not_le.mpr hnow)
      · rw [hB]
        have h21 : kv2.1 = q := by rw [heq2]
        exact h.pDist kv hm (q, v2) hv2 (by rw [← h21]; exact hne) hpl1 hvp
    · have h12 : kv.2 = g v := by rw [heq]
      have hplg : (g v).is_playing = true := by
        rw [← h12]
        exact hpl1
      rw [h12]
      rcases hgB v hplg with hB | ⟨hvp, hB⟩
      · rw [hB]
        intro hc
        rcases hts2 : kv2.2.start_timestamp with _ | t2
        · rw [hts2] at hc
          cases hc
        · rw [hts2] at hc
          have ht2 : t2 = now := (Option.some.inj hc).symm
          rw [ht2] at hts2
          exact absurd (h.stLe kv2 hm2 now hts2) (not_le.mpr hnow)
      · rw [hB]
        have h11 : kv.1 = q := by rw [heq]
        exact h.pDist (q, v) hv kv2 hm2 (by rw [← h11]; exact hne) hvp hpl2
    · have h11 : kv.1 = q := by rw [heq]
      have h21 : kv2.1 = q := by rw [heq2]
      exact absurd (h11.trans h21.symm) hne

/-- Handling any event at an instant strictly after the clock preserves the
invariant. -/
theorem inv_handle {m : Monitor} {now : Nat} (hnow : m.clock < now)
    (h : MonitorInv m) (e : MprisEvent) :
    MonitorInv { m.handle_event now e with clock := now } := by
  cases e with
  | trackChanged q tr il =>
    refine inv_update_shape hnow h ?_ ?_ (tracked_trackChanged m now q tr il)
      ?_ rfl
    · intro v
      rw [trackChangedUpdate_ts]
      by_cases hv : v.is_playing = true
      · rw [if_pos hv]
        right
        rfl
      · rw [if_neg hv]
        left
        rfl
    · intro v hpl
      rw [trackChangedUpdate_is_playing] at hpl
      left
      rw [trackChangedUpdate_ts, if_pos hpl]
    · rw [log_trackChanged]
      rcases h0 : alookup q m.tracked_players with _ | s0
      · left
        rfl
      · dsimp only
        by_cases hq : m.qualifies now s0 = true
        · right
          refine ⟨s0, rfl, qualifies_is_playing hq, ?_, ?_⟩
          · rw [if_pos hq]
          · intro hplg
            rw [trackChangedUpdate_ts, if_pos (qualifies_is_playing hq)]
        · left
          rw [if_neg hq]
  | paused q =>
    refine inv_update_shape hnow h ?_ ?_ (tracked_paused m now q) ?_ rfl
    · intro v
      left
      rfl
    · intro v hpl
      exact absurd hpl (by rw [stop_playing_not_playing]; exact Bool.false_ne_true)
    · rw [log_paused]
      rcases h0 : alookup q m.tracked_players with _ | s0
      · left
        rfl
      · dsimp only
        by_cases hq : m.qualifies now s0 = true
        · right
          refine ⟨s0, rfl, qualifies_is_playing hq, ?_, ?_⟩
          · rw [if_pos hq]
          · intro hplg
            exact absurd hplg
              (by rw [stop_playing_not_playing]; exact Bool.false_ne_true)
        · left
          rw [if_neg hq]
  | stopped q =>
    refine inv_update_shape hnow h ?_ ?_ (tracked_stopped m now q) ?_ rfl
    · intro v
      left
      rfl
    · intro v hpl
      exact absurd hpl (by rw [stop_playing_not_playing]; exact Bool.false_ne_true)
    · rw [log_stopped]
      rcases h0 : alookup q m.tracked_players with _ | s0
      · left
        rfl
      · dsimp only
        by_cases hq : m.qualifies now s0 = true
        · right
          refine ⟨s0, rfl, qualifies_is_playing hq, ?_, ?_⟩
          · rw [if_pos hq]
          · intro hplg
            exact absurd hplg
              (by rw [stop_playing_not_playing]; exact Bool.false_ne_true)
        · left
          rw [if_neg hq]
  | playing q =>
    refine inv_update_shape hnow h ?_ ?_ (tracked_playing m now q)
      (Or.inl (log_playing m now q)) rfl
    · intro v
      rw [playingUpdate_ts]
      by_cases hv : v.is_playing = true
      · rw [if_pos hv]
        left
        rfl
      · rw [if_neg hv]
        right
        rfl
    · intro v hpl
      rw [playingUpdate_ts]
      by_cases hv : v.is_playing = true
      · right
        exact ⟨hv, by rw [if_pos hv]⟩
      · left
        rw [if_neg hv]
  | seeked q pos =>
    by_cases htr : m.tracking_config.track_seeks = true
    · have hTP := tracked_seeked m now q pos
      rw [if_pos htr] at hTP
      refine inv_update_shape hnow h ?_ ?_ hTP (Or.inl (log_seeked m now q pos)) rfl
      · intro v
        left
        exact on_seeked_ts v pos
      · intro v hpl
        right
        refine ⟨?_, on_seeked_ts v pos⟩
        rw [← on_seeked_is_playing v pos]
        exact hpl
    · refine inv_clock_bump (le_of_lt hnow) h ?_ (log_seeked m now q pos) rfl
      rw [tracked_seeked, if_neg htr]
  | playerAppeared wk u meta status =>
    rcases appeared_cases m now wk u meta status with
      ⟨hTP, hLOG⟩ | ⟨hnone, hLOG, s0, hTP, hp, hn⟩
    · exact inv_clock_bump (le_of_lt hnow) h hTP hLOG rfl
    · exact inv_insert_shape hnow h hp hn hTP hLOG rfl
  | playerDisappeared wk =>
    rcases disappeared_cases m now wk with ⟨hTP, hLOG⟩ | ⟨u, s0, h0, hTP, hLOG⟩
    · exact inv_clock_bump (le_of_lt hnow) h hTP hLOG rfl
    · refine inv_remove_shape hnow h hTP ?_ rfl
      rcases hLOG with hL | ⟨hq, hL⟩
      · exact Or.inl hL
      · exact Or.inr ⟨s0, h0, qualifies_exit_is_playing hq, hL⟩

theorem inv_step {m : Monitor} (h : MonitorInv m) (de : Nat × MprisEvent) :
    MonitorInv (m.step de) := by
  have hnow : m.clock < m.clock + de.1 + 1 := by omega
  exact inv_handle hnow h de.2

theorem inv_init (pc : PlayerConfig) (tc : TrackingConfig) :
    MonitorInv (Monitor.init pc tc) := by
  refine ⟨?_, ?_, ?_, ?_, ?_, ?_, ?_, ?_⟩ <;> simp [Monitor.init]

theorem inv_run {m : Monitor} (h : MonitorInv m)
    (es : List (Nat × MprisEvent)) : MonitorInv (m.run es) := by
  induction es generalizing m with
  | nil => exact h
  | cons de rest ih =>
    show MonitorInv ((m.step de).run rest)
    exact ih (inv_step h de)

/-- C2: across any event sequence driven through the handler from startup, a
given `(player, start_timestamp)` episode is handed to the sink at most once:
the `(player_name, start_timestamp)` keys of the sink records are pairwise
distinct.  Each logging transition either clears `is_playing`
(Paused/Stopped), re-stamps a fresh `start_timestamp` via `start_playing`
(TrackChanged of a playing state), or removes the player's state
(PlayerDisappeared) — this is what the `MonitorInv` invariant captures. -/
theorem no_double_log (pc : PlayerConfig) (tc : TrackingConfig)
    (es : List (Nat × MprisEvent)) :
    (((Monitor.init pc tc).run es).log.map
      (fun r => (r.player_name, r.start_timestamp))).Nodup := by
  have h := inv_run (inv_init pc tc) es
  have hts : (((Monitor.init pc tc).run es).log).Pairwise
      (fun a b => TrackState.start_timestamp a ≠ TrackState.start_timestamp b) :=
    List.pairwise_map.mp h.logND
  exact List.pairwise_map.mpr
    (hts.imp fun hne hkey => hne (congrArg Prod.snd hkey))

/-- C5: `on_seeked` increments `seek_count` by one, credits `d/1000`
(truncating division, `d = new - last_position_us`) to `seek_forward_ms` when
`d > 0` and `|d/1000|` to `seek_backward_ms` otherwise, sets `intro_skipped`
exactly when the seek crosses from below 5 s to above 15 s (otherwise leaves
it unchanged), updates `last_position_us`, and changes no other field. -/
theorem on_seeked_spec (s : TrackState) (p : Int) :
    (s.on_seeked p).seek_count = s.seek_count + 1 ∧
    (s.on_seeked p).seek_forward_ms =
      (if 0 < p - s.last_position_us
       then s.seek_forward_ms + Int.tdiv (p - s.last_position_us) 1000
       else s.seek_forward_ms) ∧
    (s.on_seeked p).seek_backward_ms =
      (if 0 < p - s.last_position_us
       then s.seek_backward_ms
       else s.seek_backward_ms + |Int.tdiv (p - s.last_position_us) 1000|) ∧
    (s.on_seeked p).intro_skipped =
      (if s.last_position_us < 5000000 ∧ 15000000 < p then true
       else s.intro_skipped) ∧
    (s.on_seeked p).last_position_us = p ∧
    (s.on_seeked p).track = s.track ∧
    (s.on_seeked p).start_time = s.start_time ∧
    (s.on_seeked p).start_timestamp = s.start_timestamp ∧
    (s.on_seeked p).is_playing = s.is_playing ∧
    (s.on_seeked p).is_local = s.is_local ∧
    (s.on_seeked p).player_name = s.player_name ∧
    (s.on_seeked p).app_volume = s.app_volume ∧
    (s.on_seeked p).system_volume = s.system_volume := by
  unfold TrackState.on_seeked INTRO_START_THRESHOLD_US INTRO_SKIP_THRESHOLD_US
  refine ⟨rfl, rfl, rfl, rfl, rfl, rfl, rfl, rfl, rfl, rfl, rfl, rfl, rfl⟩

/-- C4 counterexample: `stop_playing` does **not** clear `start_time`.  On the
concrete mid-episode state `s4c` (playing since instant 7), after
`stop_playing` the flag is cleared but `start_time` is still `some 7`, and the
played duration at instant 10 is 3, not 0. -/
theorem stop_playing_keeps_start_time_cex :
    (TrackState.stop_playing s4c).is_playing = false ∧
    ¬ ((TrackState.stop_playing s4c).start_time = none) ∧
    (TrackState.stop_playing s4c).start_time = some 7 ∧
    TrackState.played_duration (TrackState.stop_playing s4c) 10 = 3 := by
  decide

/-- C4 (amended): `stop_playing` clears `is_playing` and changes no other
field — in particular `start_time` keeps its value; a fresh episode's
`start_time` is only set again by `start_playing` at the next Playing
transition. -/
theorem stop_playing_frame (s : TrackState) :
    (s.stop_playing).is_playing = false ∧
    (s.stop_playing).start_time = s.start_time ∧
    (s.stop_playing).start_timestamp = s.start_timestamp ∧
    (s.stop_playing).track = s.track ∧
    (s.stop_playing).is_local = s.is_local ∧
    (s.stop_playing).player_name = s.player_name ∧
    (s.stop_playing).seek_count = s.seek_count ∧
    (s.stop_playing).intro_skipped = s.intro_skipped ∧
    (s.stop_playing).seek_forward_ms = s.seek_forward_ms ∧
    (s.stop_playing).seek_backward_ms = s.seek_backward_ms ∧
    (s.stop_playing).last_position_us = s.last_position_us ∧
    (s.stop_playing).app_volume = s.app_volume ∧
    (s.stop_playing).system_volume = s.system_volume ∧
    (∀ now, (s.start_playing now).start_time = some now ∧
      (s.start_playing now).start_timestamp = some now ∧
      (s.start_playing now).is_playing = true) := by
  unfold TrackState.stop_playing TrackState.start_playing
  exact ⟨rfl, rfl, rfl, rfl, rfl, rfl, rfl, rfl, rfl, rfl, rfl, rfl, rfl,
    fun _ => ⟨rfl, rfl, rfl⟩⟩

/-- C3: the `local_only` policy gate is missing from the qualification check
in `remove_player`.  With the default configuration (`local_only = true`), a
non-local source (URL `http://x`) that plays for 40 s and then disappears IS
handed to the sink: the run of `evC3` appends exactly one record, and its
`is_local` flag is `false`. -/
theorem local_only_gate_missing_on_remove :
    (Monitor.init {} {}).tracking_config.local_only = true ∧
    ((Monitor.init {} {}).run evC3).log.map TrackState.is_local = [false] := by
  decide

/-- C6 counterexample: with `track_seeks = false`, a `Seeked` event does
**not** update `last_position_us` (the claim says it should become the new
position): on monitor `m6` the position stays 0 instead of 5000000. -/
theorem seeked_untracked_cex :
    m6.tracking_config.track_seeks = false ∧
    (alookup ":1.9" ((m6.step (0, .seeked ":1.9" 5000000)).tracked_players)).map
      TrackState.last_position_us = some 0 ∧
    ¬ ((alookup ":1.9" ((m6.step (0, .seeked ":1.9" 5000000)).tracked_players)).map
      TrackState.last_position_us = some 5000000) := by
  decide

/-- C6 (amended): with `track_seeks = false`, handling a `Seeked` event leaves
the monitor entirely unchanged apart from the clock — in particular the
player's `last_position_us` and all seek counters keep their values. -/
theorem seeked_untracked_noop (m : Monitor) (dt : Nat) (p : String) (pos : Int)
    (h : m.tracking_config.track_seeks = false) :
    (m.step (dt, .seeked p pos)).tracked_players = m.tracked_players ∧
    (m.step (dt, .seeked p pos)).log = m.log ∧
    (m.step (dt, .seeked p pos)).bus_name_map = m.bus_name_map ∧
    (m.step (dt, .seeked p pos)).idle_since = m.idle_since := by
  unfold Monitor.step Monitor.handle_event
  simp [h]

/-- C6 witness: the amended no-op statement at the concrete monitor `m6`. -/
theorem seeked_untracked_noop_witness :
    m6.tracking_config.track_seeks = false ∧
    ((m6.step (3, .seeked ":1.9" 5000000)).tracked_players = m6.tracked_players ∧
     (m6.step (3, .seeked ":1.9" 5000000)).log = m6.log ∧
     (m6.step (3, .seeked ":1.9" 5000000)).bus_name_map = m6.bus_name_map ∧
     (m6.step (3, .seeked ":1.9" 5000000)).idle_since = m6.idle_since) :=
  ⟨by decide, seeked_untracked_noop m6 3 ":1.9" 5000000 (by decide)⟩

/-- C9 counterexample: the deny-list is matched against the well-known name
with the MPRIS prefix stripped, not against the full name: the name
`org.mpris.MediaPlayer2.foo` contains the deny-list entry `org.`, yet the
filter admits it. -/
theorem should_track_player_cex :
    strContains "org.mpris.MediaPlayer2.foo" "org." = true ∧
    should_track_player
      { whitelist := [], blacklist := ["org."], local_only_players := [] }
      "org.mpris.MediaPlayer2.foo" = true := by
  decide

/-- C9 (amended): with `pid` the well-known name with the
`org.mpris.MediaPlayer2.` prefix stripped, the filter returns `false` when
`pid` contains a deny-list substring (deny-list first); otherwise it returns
`true` when the allow-list is empty, and with a non-empty allow-list it
returns `true` iff `pid` contains at least one allow-list substring. -/
theorem should_track_player_characterization (cfg : PlayerConfig) (name : String) :
    should_track_player cfg name = true ↔
      ((∀ b ∈ cfg.blacklist, strContains (stripMpris name) b = false) ∧
       (cfg.whitelist = [] ∨
        ∃ w ∈ cfg.whitelist, strContains (stripMpris name) w = true)) := by
  unfold should_track_player
  by_cases hbl : (cfg.blacklist.any fun p => strContains (stripMpris name) p) = true
  · rw [if_pos hbl]
    simp only [List.any_eq_true] at hbl
    obtain ⟨b, hb, hc⟩ := hbl
    constructor
    · intro h; cases h
    · rintro ⟨hall, -⟩
      rw [hall b hb] at hc
      cases hc
  · rw [if_neg hbl]
    simp only [List.any_eq_true, not_exists, not_and] at hbl
    have hall : ∀ b ∈ cfg.blacklist, strContains (stripMpris name) b = false := by
      intro b hb
      exact Bool.eq_false_iff.mpr (hbl b hb)
    by_cases hwl : cfg.whitelist.isEmpty = true
    · rw [if_pos hwl]
      simp only [List.isEmpty_iff] at hwl
      simp only [hwl, true_iff, iff_true]
      simp only [List.not_mem_nil, false_implies, implies_true, true_or, and_true]
      exact hall
    · rw [if_neg hwl]
      simp only [List.isEmpty_iff] at hwl
      simp only [List.any_eq_true, hwl, false_or]
      constructor
      · intro h
        exact ⟨hall, h⟩
      · rintro ⟨-, h⟩
        exact h

/-- C8: `is_local_source` is a pure function of the track and player name,
true exactly when either the player name (MPRIS prefix stripped) contains a
configured known-local-only entry, or the track's URL starts with `file://`
or `/`; in every other case — remote scheme (`http://`, `https://`,
`spotify:`, `deezer:`, `tidal:`), unknown scheme, or no URL — it is false. -/
theorem is_local_source_characterization (t : Track) (lp : List String)
    (pn : Option String) :
    t.is_local_source lp pn = true ↔
      ((∃ name, pn = some name ∧ ∃ p ∈ lp, strContains (stripMpris name) p = true)
       ∨ (∃ path, t.file_path = some path ∧
           (strStartsWith path "file://" = true ∨ strStartsWith path "/" = true))) := by
  rcases pn with _ | name
  · simp only [Track.is_local_source]
    rcases hf : t.file_path with _ | path
    · simp
    · simp only [Option.some.injEq, reduceCtorEq, false_and, exists_false,
        exists_eq_left', false_or]
      by_cases h1 : strStartsWith path "file://" = true
      · simp [h1]
      · by_cases h2 : strStartsWith path "/" = true
        · simp [h1, h2]
        · simp only [Bool.not_eq_true] at h1 h2
          simp only [h1, h2, Bool.or_self, Bool.false_eq_true, if_false, or_self]
          split <;> simp
  · simp only [Track.is_local_source]
    by_cases hb : (lp.any fun p => strContains (stripMpris name) p) = true
    · simp only [hb, if_true]
      simp only [List.any_eq_true] at hb
      simp [hb]
    · simp only [Bool.not_eq_true] at hb
      simp only [hb, Bool.false_eq_true, if_false]
      have hp : ¬ ∃ p ∈ lp, strContains (stripMpris name) p = true := by
        rw [← List.any_eq_true, hb]
        simp
      simp only [Option.some.injEq, exists_eq_left', hp, false_or]
      rcases hf : t.file_path with _ | path
      · simp
      · simp only [Option.some.injEq, exists_eq_left']
        by_cases h1 : strStartsWith path "file://" = true
        · simp [h1]
        · by_cases h2 : strStartsWith path "/" = true
          · simp [h1, h2]
          · simp only [Bool.not_eq_true] at h1 h2
            simp only [h1, h2, Bool.or_self, Bool.false_eq_true, if_false, or_self]
            split <;> simp

/-- C1: `should_log(s, min_seconds, min_percent)` (at instant `now`) is true
iff the title is present, an episode began (`start_time` present), the played
time is at least `min_seconds` seconds, and the duration is unknown or
nonpositive, or the played fraction reaches `min_percent`, or 240 s have been
played.  Played time is `Duration::as_secs`-truncated to whole seconds, so
"at least `min_seconds` seconds" is `1000000 * min_seconds ≤ played`
microseconds. -/
theorem should_log_characterization (s : TrackState) (now min_seconds : Nat)
    (min_percent : ℚ) :
    s.should_log now min_seconds min_percent = true ↔
      (s.track.title.isSome = true ∧ s.start_time.isSome = true ∧
       1000000 * min_seconds ≤ s.played_duration now ∧
       (s.track.duration_us = none
        ∨ (∃ d, s.track.duration_us = some d ∧ d ≤ 0)
        ∨ (∃ d, s.track.duration_us = some d ∧ 0 < d ∧
            min_percent ≤ (s.played_duration now : ℚ) / (d : ℚ))
        ∨ 240 * 1000000 ≤ s.played_duration now)) := by
  rcases ht : s.track.title with _ | ttl
  · simp [TrackState.should_log, ht]
  rcases hst : s.start_time with _ | st
  · simp [TrackState.should_log, hst]
  simp only [TrackState.should_log, ht, hst, Option.isNone_some, Bool.or_self,
    Bool.false_eq_true, if_false, Option.isSome_some, true_and]
  by_cases hmin : s.played_duration now / 1000000 < min_seconds
  · simp only [hmin, if_true, Bool.false_eq_true, false_iff, not_and, not_or]
    intro hle
    exact absurd ((Nat.le_div_iff_mul_le (by norm_num)).mpr
      (by rw [Nat.mul_comm]; exact hle)) (Nat.not_le.mpr hmin)
  · have hle : 1000000 * min_seconds ≤ s.played_duration now := by
      rw [Nat.mul_comm]
      exact (Nat.le_div_iff_mul_le (by norm_num)).mp (Nat.not_lt.mp hmin)
    simp only [hmin, if_false, hle, true_and]
    rcases hd : s.track.duration_us with _ | d
    · simp
    · simp only [Option.some.injEq, reduceCtorEq, false_or, exists_eq_left']
      by_cases hd0 : d ≤ 0
      · simp [hd0]
      · have hdpos : (0 : Int) < d := lt_of_not_ge hd0
        have hdQ : (0 : ℚ) < (d : ℚ) := by exact_mod_cast hdpos
        simp only [hd0, if_false, Bool.or_eq_true, decide_eq_true_eq, hdpos,
          true_and, not_le.mpr hdpos, false_or]
        constructor
        · rintro (hfrac | h240)
          · left
            rw [div_mul_eq_mul_div, div_le_div_iff_of_pos_right (by norm_num)] at hfrac
            rw [le_div_iff₀ hdQ]
            calc min_percent * (d : ℚ) = (d : ℚ) * min_percent := mul_comm _ _
              _ ≤ ((s.played_duration now : Nat) : ℚ) := hfrac
          · right
            exact (Nat.le_div_iff_mul_le (by norm_num)).mp h240
        · rintro (hfrac | h240)
          · left
            rw [le_div_iff₀ hdQ] at hfrac
            rw [div_mul_eq_mul_div, div_le_div_iff_of_pos_right (by norm_num)]
            calc (d : ℚ) * min_percent = min_percent * (d : ℚ) := mul_comm _ _
              _ ≤ ((s.played_duration now : Nat) : ℚ) := hfrac
          · right
            exact (Nat.le_div_iff_mul_le (by norm_num)).mpr h240

/-- C7: a player's `seek_count` is non-decreasing across any handled event
that is not a `TrackChanged` for that player (only `on_seeked` touches it
within an episode, and it only increments), and handling a `TrackChanged` for
the player resets `seek_count`, `intro_skipped`, `seek_forward_ms`,
`seek_backward_ms` and `last_position_us` to zero. -/
theorem seek_count_monotone_and_reset :
    (∀ (m : Monitor) (dt : Nat) (e : MprisEvent) (p : String) (s s' : TrackState),
      (∀ tr il, e ≠ .trackChanged p tr il) →
      alookup p m.tracked_players = some s →
      alookup p (m.step (dt, e)).tracked_players = some s' →
      s.seek_count ≤ s'.seek_count) ∧
    (∀ (m : Monitor) (dt : Nat) (tr : Track) (il : Bool) (p : String)
        (s' : TrackState),
      alookup p (m.step (dt, .trackChanged p tr il)).tracked_players = some s' →
      s'.seek_count = 0 ∧ s'.intro_skipped = false ∧ s'.seek_forward_ms = 0 ∧
        s'.seek_backward_ms = 0 ∧ s'.last_position_us = 0) := by
  constructor
  · intro m dt e p s s' hne hs hs'
    rw [tracked_step] at hs'
    cases e with
    | trackChanged q tr il =>
      rcases eq_or_ne q p with rfl | hqp
      · exact absurd rfl (hne tr il)
      · rw [tracked_trackChanged, alookup_aupdate_ne (Ne.symm hqp), hs] at hs'
        rw [Option.some.inj hs']
    | playing q =>
      rw [tracked_playing] at hs'
      rcases eq_or_ne q p with rfl | hqp
      · rw [alookup_aupdate_self, hs] at hs'
        rw [← Option.some.inj hs', playingUpdate_seek_count]
      · rw [alookup_aupdate_ne (Ne.symm hqp), hs] at hs'
        rw [Option.some.inj hs']
    | paused q =>
      rw [tracked_paused] at hs'
      rcases eq_or_ne q p with rfl | hqp
      · rw [alookup_aupdate_self, hs] at hs'
        rw [← Option.some.inj hs']
        exact le_refl _
      · rw [alookup_aupdate_ne (Ne.symm hqp), hs] at hs'
        rw [Option.some.inj hs']
    | stopped q =>
      rw [tracked_stopped] at hs'
      rcases eq_or_ne q p with rfl | hqp
      · rw [alookup_aupdate_self, hs] at hs'
        rw [← Option.some.inj hs']
        exact le_refl _
      · rw [alookup_aupdate_ne (Ne.symm hqp), hs] at hs'
        rw [Option.some.inj hs']
    | seeked q pos =>
      rw [tracked_seeked] at hs'
      by_cases htr : m.tracking_config.track_seeks = true
      · rw [if_pos htr] at hs'
        rcases eq_or_ne q p with rfl | hqp
        · rw [alookup_aupdate_self, hs] at hs'
          rw [← Option.some.inj hs', on_seeked_seek_count]
          exact Nat.le_succ _
        · rw [alookup_aupdate_ne (Ne.symm hqp), hs] at hs'
          rw [Option.some.inj hs']
      · rw [if_neg htr, hs] at hs'
        rw [Option.some.inj hs']
    | playerAppeared wk u meta status =>
      rcases tracked_appeared m (m.clock + dt + 1) wk u meta status with
        heq | ⟨hnone, s0, heq⟩
      · rw [heq, hs] at hs'
        rw [Option.some.inj hs']
      · rw [heq] at hs'
        rcases eq_or_ne u p with rfl | hup
        · rw [hnone] at hs
          cases hs
        · rw [alookup_ainsert_ne (Ne.symm hup), hs] at hs'
          rw [Option.some.inj hs']
    | playerDisappeared wk =>
      rcases tracked_disappeared m (m.clock + dt + 1) wk with heq | ⟨u, heq⟩
      · rw [heq, hs] at hs'
        rw [Option.some.inj hs']
      · rw [heq] at hs'
        rcases eq_or_ne u p with rfl | hup
        · rw [alookup_aremove_self] at hs'
          cases hs'
        · rw [alookup_aremove_ne (Ne.symm hup), hs] at hs'
          rw [Option.some.inj hs']
  · intro m dt tr il p s' hs'
    rw [tracked_step, tracked_trackChanged, alookup_aupdate_self] at hs'
    rcases h0 : alookup p m.tracked_players with _ | s0
    · rw [h0] at hs'
      cases hs'
    · rw [h0] at hs'
      rw [← Option.some.inj hs']
      exact trackChangedUpdate_resets _ _ _ _

/-- C7 witness: on the concrete monitor `m10` (player `:1.7` playing with
`seek_count = 3`), a `Playing` event keeps `seek_count` at least 3, and a
`TrackChanged` for `:1.7` yields the reset state. -/
theorem seek_count_monotone_and_reset_witness :
    (({ s4c with seek_count := 3 } : TrackState).seek_count ≤
       ({ s4c with seek_count := 3 } : TrackState).seek_count) ∧
    (s7r.seek_count = 0 ∧ s7r.intro_skipped = false ∧ s7r.seek_forward_ms = 0 ∧
       s7r.seek_backward_ms = 0 ∧ s7r.last_position_us = 0) :=
  ⟨seek_count_monotone_and_reset.1 m10 0 (.playing ":1.7") ":1.7" _ _
     (fun tr il h => MprisEvent.noConfusion h) (by decide) (by decide),
   seek_count_monotone_and_reset.2 m10 0 {} false ":1.7" _ (by decide)⟩

/-- C10: adding a player whose resolved unique connection name is already in
the registry is a complete no-op: `add_player` returns the monitor unchanged —
the existing episode state, the `unique → well-known` map and the idle timer
are all preserved. -/
theorem add_player_duplicate_noop (m : Monitor) (now : Nat) (wk u : String)
    (meta : Option Track) (status : Bool)
    (h : (alookup u m.tracked_players).isSome = true) :
    m.add_player now wk u meta status = m := by
  unfold Monitor.add_player
  simp [h]

/-- C10 witness: the duplicate-add no-op at the concrete monitor `m10`, whose
registry already holds unique name `:1.7` with an in-progress episode. -/
theorem add_player_duplicate_noop_witness :
    (alookup ":1.7" m10.tracked_players).isSome = true ∧
    m10.add_player 25 "org.mpris.MediaPlayer2.mpv" ":1.7" none true = m10 :=
  ⟨by decide,
   add_player_duplicate_noop m10 25 "org.mpris.MediaPlayer2.mpv" ":1.7" none true
     (by decide)⟩

end Niandra
